import Mathlib

/-!
Verification of the length-prefixed buffer parser and string helpers in
src/examples/sample_code.c.

The C functions are shallowly embedded as pure Lean functions:

* A byte buffer handed to `process_input` is an `Option (List Nat)`:
  `none` models a NULL pointer, `some l` a buffer whose extent is
  `l.length` bytes (the `len` argument of the C function).  Each list
  element models one `unsigned char`, so every read is taken mod 256.
* `malloc` is modelled by an oracle `alloc : Nat → Bool` saying whether an
  allocation of a given size succeeds; C gives no guarantee either way.
* Memory beyond the end of the buffer is modelled by `junk : Nat → Nat`:
  a read of byte `i ≥ l.length` (an out-of-bounds read, which the C code
  can perform) observes `junk i`, and the `oob` flag of the result records
  that such a read happened.
* `size_t` is 64 bits wide: arithmetic on it is `Nat` arithmetic mod
  `2 ^ 64`, and the length field at offset 4 is decoded in little-endian
  (native) byte order from 8 bytes.
-/

/-- The width of `size_t`: values of type `size_t` live in `[0, WORD)`. -/
def WORD : Nat := 2 ^ 64

/-- Read byte `i` of buffer `l`; beyond the buffer the read observes the
junk memory `junk`.  The value of an `unsigned char` is reduced mod 256. -/
def byteAt (l : List Nat) (junk : Nat → Nat) (i : Nat) : Nat :=
  (l.getD i (junk i)) % 256

/-- The magic-number check of `process_input`:
`len >= 4 && input[0] == 'F' && input[1] == 'U' && input[2] == 'Z' && input[3] == 'Z'`. -/
def tag_check (l : List Nat) (junk : Nat → Nat) : Bool :=
  4 ≤ l.length && byteAt l junk 0 == 70 && byteAt l junk 1 == 85 &&
    byteAt l junk 2 == 90 && byteAt l junk 3 == 90

/-- The length-field read `*(size_t*)(input + 4)`: 8 bytes at offsets
4..11, assembled in little-endian byte order. -/
def decodeLen (l : List Nat) (junk : Nat → Nat) : Nat :=
  byteAt l junk 4 + byteAt l junk 5 * 2 ^ 8 + byteAt l junk 6 * 2 ^ 16 +
    byteAt l junk 7 * 2 ^ 24 + byteAt l junk 8 * 2 ^ 32 +
    byteAt l junk 9 * 2 ^ 40 + byteAt l junk 10 * 2 ^ 48 +
    byteAt l junk 11 * 2 ^ 56

/-- Observable outcome of one call of `process_input`, together with the
bookkeeping a caller of the C function cannot see directly:
how often `malloc` was attempted and succeeded, how often `free` ran,
whether the length field was read, whether any read touched memory outside
`input[0 .. len)`, and the bytes `memcpy` placed into the scratch buffer. -/
structure ProcOut where
  ret : Int
  mallocCalls : Nat
  allocSucc : Nat
  freeCalls : Nat
  readLenField : Bool
  oob : Bool
  copied : Option (List Nat)

/-- Shallow embedding of `process_input` from src/examples/sample_code.c:

```
int process_input(const unsigned char *input, size_t len) {
    if (input == NULL || len == 0) { return -1; }
    if (len >= 4 && input[0] == 'F' && input[1] == 'U' &&
        input[2] == 'Z' && input[3] == 'Z') {
        if (len >= 8) {
            size_t data_len = *(size_t*)(input + 4);
            if (data_len > 0 && len >= 8 + data_len) {
                char *buffer = malloc(data_len);
                if (buffer) {
                    memcpy(buffer, input + 8, data_len);
                    free(buffer);
                    return 0;
                }
            }
        }
    }
    return 1;
}
```

The comparison `len >= 8 + data_len` is `size_t` arithmetic, hence the
`% WORD` on the sum.  The length-field read touches bytes 4..11, so it is
out of bounds whenever `len < 12`; `memcpy` reads bytes `8 .. 8+data_len`,
out of bounds whenever `len < 8 + data_len` in exact arithmetic. -/
def process_input (alloc : Nat → Bool) (junk : Nat → Nat)
    (input : Option (List Nat)) : ProcOut :=
  match input with
  | none => ⟨-1, 0, 0, 0, false, false, none⟩
  | some l =>
    if l.length = 0 then ⟨-1, 0, 0, 0, false, false, none⟩
    else if tag_check l junk then
      if 8 ≤ l.length then
        if 0 < decodeLen l junk ∧ (8 + decodeLen l junk) % WORD ≤ l.length then
          if alloc (decodeLen l junk) then
            ⟨0, 1, 1, 1, true,
              decide (l.length < 12) || decide (l.length < 8 + decodeLen l junk),
              some ((List.range (decodeLen l junk)).map
                (fun k => byteAt l junk (8 + k)))⟩
          else ⟨1, 1, 0, 0, true, decide (l.length < 12), none⟩
        else ⟨1, 0, 0, 0, true, decide (l.length < 12), none⟩
      else ⟨1, 0, 0, 0, false, false, none⟩
    else ⟨1, 0, 0, 0, false, false, none⟩

/-- `strncpy(dest, src, n)` as a value: the `n` bytes it writes, namely
the characters of `src` up to its terminator and zero padding after it.
`src` is the character list of a C string (the terminator is the end of
the list or the first embedded zero). -/
def strncpyList : List Nat → Nat → List Nat
  | _, 0 => []
  | [], m + 1 => List.replicate (m + 1) 0
  | c :: rest, m + 1 =>
      if c % 256 = 0 then List.replicate (m + 1) 0
      else c % 256 :: strncpyList rest m

/-- Overwrite the first `w.length` cells of buffer `d` with `w`, leaving
the rest of `d` unchanged. -/
def writeRange (d w : List Nat) : List Nat :=
  (List.range d.length).map (fun i => if i < w.length then w.getD i 0 else d.getD i 0)

/-- Shallow embedding of `safe_copy_string` from src/examples/sample_code.c:

```
void safe_copy_string(char *dest, const char *src, size_t dest_size) {
    if (dest == NULL || src == NULL || dest_size == 0) { return; }
    strncpy(dest, src, dest_size - 1);
    dest[dest_size - 1] = '\0';
}
```

`dest` models the destination buffer (capacity `d.length` cells), `src`
the source string; the result is the destination buffer after the call
(`none` for a NULL destination pointer, which stays untouched). -/
def safe_copy_string (dest src : Option (List Nat)) (dest_size : Nat) :
    Option (List Nat) :=
  match dest, src with
  | some d, some s =>
      if dest_size = 0 then some d
      else some (writeRange d (strncpyList s (dest_size - 1) ++ [0]))
  | some d, none => some d
  | none, _ => none

/-- The spec scenario of calling the parser twice on the same immutable
input: both calls, as a pair. -/
def call_twice (alloc : Nat → Bool) (junk : Nat → Nat)
    (input : Option (List Nat)) : ProcOut × ProcOut :=
  (process_input alloc junk input, process_input alloc junk input)

/-! ## Helper lemmas -/

theorem getD_map_range (f : Nat → Nat) (n i : Nat) (h : i < n) :
    ((List.range n).map f).getD i 0 = f i := by
  rw [List.getD_eq_getElem _ _ (by simpa using h)]
  simp

theorem getD_replicate_zero (n i : Nat) : (List.replicate n 0).getD i 0 = 0 := by
  rcases Nat.lt_or_ge i n with h | h
  · rw [List.getD_eq_getElem _ _ (by simpa using h), List.getElem_replicate]
  · rw [List.getD_eq_default _ _ (by simpa using h)]

theorem tag_check_iff (l : List Nat) (j : Nat → Nat) (hb : ∀ b ∈ l, b < 256) :
    tag_check l j = true ↔ 4 ≤ l.length ∧ l.take 4 = [70, 85, 90, 90] := by
  rcases l with _ | ⟨b0, _ | ⟨b1, _ | ⟨b2, _ | ⟨b3, rest⟩⟩⟩⟩
  · simp [tag_check]
  · simp [tag_check]
  · simp [tag_check]
  · simp [tag_check]
  · have h0 : b0 < 256 := hb b0 (by simp)
    have h1 : b1 < 256 := hb b1 (by simp)
    have h2 : b2 < 256 := hb b2 (by simp)
    have h3 : b3 < 256 := hb b3 (by simp)
    simp [tag_check, byteAt, Nat.mod_eq_of_lt h0, Nat.mod_eq_of_lt h1,
      Nat.mod_eq_of_lt h2, Nat.mod_eq_of_lt h3, Nat.le_add_left, and_assoc]

theorem tag_check_length (l : List Nat) (j : Nat → Nat)
    (h : tag_check l j = true) : 4 ≤ l.length := by
  unfold tag_check at h
  simp only [Bool.and_eq_true, decide_eq_true_eq, beq_iff_eq] at h
  exact h.1.1.1.1

theorem strncpyList_length (s : List Nat) (n : Nat) :
    (strncpyList s n).length = n := by
  induction s generalizing n with
  | nil => cases n <;> simp [strncpyList]
  | cons c rest ih =>
      cases n with
      | zero => simp [strncpyList]
      | succ m =>
          by_cases hc : c % 256 = 0
          · simp [strncpyList, hc]
          · simp [strncpyList, hc, ih]

theorem strncpyList_getD (s : List Nat) (n i : Nat) :
    (strncpyList s n).getD i 0 = s.getD i 0 % 256 ∨
      (strncpyList s n).getD i 0 = 0 := by
  induction s generalizing n i with
  | nil => cases n <;> simp [strncpyList, getD_replicate_zero]
  | cons c rest ih =>
      cases n with
      | zero => simp [strncpyList]
      | succ m =>
          by_cases hc : c % 256 = 0
          · simp [strncpyList, hc, getD_replicate_zero]
          · cases i with
            | zero => simp [strncpyList, hc]
            | succ k =>
                simp only [strncpyList, if_neg hc, List.getD_cons_succ]
                exact ih m k

theorem writeRange_length (d w : List Nat) : (writeRange d w).length = d.length := by
  simp [writeRange]

theorem writeRange_getD (d w : List Nat) (i : Nat) (h : i < d.length) :
    (writeRange d w).getD i 0 =
      if i < w.length then w.getD i 0 else d.getD i 0 := by
  unfold writeRange
  rw [getD_map_range _ _ _ h]

theorem writeRange_getD_ge (d w : List Nat) (i : Nat) (h : d.length ≤ i) :
    (writeRange d w).getD i 0 = 0 := by
  apply List.getD_eq_default
  simpa [writeRange] using h

/-! ## Claim theorems -/

/-- C3: every call of `process_input` returns one of exactly three statuses
— `-1` (null/empty input), the generic non-success status `1`, or success
`0` — and every failure, including a failed scratch allocation (which
falls through to the generic non-success status, as witnessed by the
always-failing allocator), is an ordinary return value of the total
function. -/
theorem process_input_three_statuses (a : Nat → Bool) (j : Nat → Nat)
    (inp : Option (List Nat)) :
    ((process_input a j inp).ret = -1 ∨ (process_input a j inp).ret = 1 ∨
      (process_input a j inp).ret = 0) ∧
    ((process_input (fun _ => false) j inp).ret = -1 ∨
      (process_input (fun _ => false) j inp).ret = 1) := by
  constructor
  · cases inp with
    | none => exact Or.inl rfl
    | some l =>
        simp only [process_input]
        split
        · exact Or.inl rfl
        · split
          · split
            · split
              · split
                · exact Or.inr (Or.inr rfl)
                · exact Or.inr (Or.inl rfl)
              · exact Or.inr (Or.inl rfl)
            · exact Or.inr (Or.inl rfl)
          · exact Or.inr (Or.inl rfl)
  · cases inp with
    | none => exact Or.inl rfl
    | some l =>
        simp only [process_input]
        split
        · exact Or.inl rfl
        · split
          · split
            · split
              · split
                · next h => exact absurd h (by simp)
                · exact Or.inr rfl
              · exact Or.inr rfl
            · exact Or.inr rfl
          · exact Or.inr rfl

/-- C4: for a null input pointer or length 0, `process_input` returns the
`Rejected` status `-1` and attempts no allocation; every non-null,
non-empty input yields a status different from `-1`, so `-1` is reserved
for the null/empty rejection. -/
theorem process_input_null_empty (a : Nat → Bool) (j : Nat → Nat)
    (l : List Nat) (h : l ≠ []) :
    (process_input a j none).ret = -1 ∧
    (process_input a j none).mallocCalls = 0 ∧
    (process_input a j (some [])).ret = -1 ∧
    (process_input a j (some [])).mallocCalls = 0 ∧
    (process_input a j (some l)).ret ≠ -1 := by
  refine ⟨rfl, rfl, rfl, rfl, ?_⟩
  have hne : ¬ l.length = 0 := by simpa using h
  simp only [process_input, if_neg hne]
  split
  · split
    · split
      · split <;> simp
      · simp
    · simp
  · simp

/-- Witness for `process_input_null_empty` at concrete arguments. -/
theorem process_input_null_empty_witness :
    (process_input (fun _ => true) (fun _ => 0) none).ret = -1 ∧
    (process_input (fun _ => true) (fun _ => 0) none).mallocCalls = 0 ∧
    (process_input (fun _ => true) (fun _ => 0) (some [])).ret = -1 ∧
    (process_input (fun _ => true) (fun _ => 0) (some [])).mallocCalls = 0 ∧
    (process_input (fun _ => true) (fun _ => 0) (some [1])).ret ≠ -1 :=
  process_input_null_empty (fun _ => true) (fun _ => 0) [1] (by decide)

/-- C6: for a valid `FUZZ` tag but total length < 8, `process_input`
returns the rejection status `1`, never reads the 8-byte length field,
reads no byte past the available input, and attempts no allocation. -/
theorem process_input_short_header (a : Nat → Bool) (j : Nat → Nat)
    (l : List Nat) (htag : tag_check l j = true) (hlen : l.length < 8) :
    (process_input a j (some l)).ret = 1 ∧
    (process_input a j (some l)).readLenField = false ∧
    (process_input a j (some l)).oob = false ∧
    (process_input a j (some l)).mallocCalls = 0 := by
  have h4 : 4 ≤ l.length := tag_check_length l j htag
  have hne : ¬ l.length = 0 := by omega
  simp only [process_input, if_neg hne, if_pos htag,
    if_neg (by omega : ¬ 8 ≤ l.length)]
  refine ⟨?_, ?_, ?_, ?_⟩ <;> trivial

/-- Witness for `process_input_short_header` at a concrete 5-byte input. -/
theorem process_input_short_header_witness :
    (process_input (fun _ => true) (fun _ => 0) (some [70, 85, 90, 90, 1])).ret = 1 ∧
    (process_input (fun _ => true) (fun _ => 0)
      (some [70, 85, 90, 90, 1])).readLenField = false ∧
    (process_input (fun _ => true) (fun _ => 0)
      (some [70, 85, 90, 90, 1])).oob = false ∧
    (process_input (fun _ => true) (fun _ => 0)
      (some [70, 85, 90, 90, 1])).mallocCalls = 0 :=
  process_input_short_header (fun _ => true) (fun _ => 0) [70, 85, 90, 90, 1]
    (by decide) (by decide)

/-- C7: for a valid `FUZZ` tag, total length ≥ 8 and a declared length
field that decodes to 0, `process_input` returns the rejection status `1`,
attempts no allocation and copies nothing. -/
theorem process_input_zero_declared (a : Nat → Bool) (j : Nat → Nat)
    (l : List Nat) (htag : tag_check l j = true) (hlen : 8 ≤ l.length)
    (hdl : decodeLen l j = 0) :
    (process_input a j (some l)).ret = 1 ∧
    (process_input a j (some l)).mallocCalls = 0 ∧
    (process_input a j (some l)).copied = none := by
  have h4 : 4 ≤ l.length := tag_check_length l j htag
  have hne : ¬ l.length = 0 := by omega
  simp only [process_input, if_neg hne, if_pos htag, if_pos hlen,
    if_neg (by simp [hdl] : ¬ (0 < decodeLen l j ∧
      (8 + decodeLen l j) % WORD ≤ l.length))]
  refine ⟨?_, ?_, ?_⟩ <;> trivial

/-- Witness for `process_input_zero_declared` at a concrete 12-byte input
with an all-zero length field. -/
theorem process_input_zero_declared_witness :
    (process_input (fun _ => true) (fun _ => 0)
      (some [70, 85, 90, 90, 0, 0, 0, 0, 0, 0, 0, 0])).ret = 1 ∧
    (process_input (fun _ => true) (fun _ => 0)
      (some [70, 85, 90, 90, 0, 0, 0, 0, 0, 0, 0, 0])).mallocCalls = 0 ∧
    (process_input (fun _ => true) (fun _ => 0)
      (some [70, 85, 90, 90, 0, 0, 0, 0, 0, 0, 0, 0])).copied = none :=
  process_input_zero_declared (fun _ => true) (fun _ => 0)
    [70, 85, 90, 90, 0, 0, 0, 0, 0, 0, 0, 0] (by decide) (by decide) (by decide)

/-- C8: the parser is deterministic and stateless — two calls on the same
immutable input (same allocator behaviour, same surrounding memory) give
the same result. -/
theorem process_input_idempotent (a : Nat → Bool) (j : Nat → Nat)
    (inp : Option (List Nat)) :
    (call_twice a j inp).1 = (call_twice a j inp).2 := rfl

/-- C9: in every call of `process_input`, at most one allocation is
attempted, every successful allocation is matched by exactly one release
before the call returns (the scratch buffer never escapes), and no more
allocations succeed than were attempted.  Immutability of the input and
statelessness hold by construction: the embedding is a pure function of
the input buffer and the two oracles. -/
theorem process_input_alloc_scoped (a : Nat → Bool) (j : Nat → Nat)
    (inp : Option (List Nat)) :
    (process_input a j inp).mallocCalls ≤ 1 ∧
    (process_input a j inp).freeCalls = (process_input a j inp).allocSucc ∧
    (process_input a j inp).allocSucc ≤ (process_input a j inp).mallocCalls := by
  cases inp with
  | none => exact ⟨Nat.zero_le 1, rfl, Nat.le_refl 0⟩
  | some l =>
      simp only [process_input]
      split
      · exact ⟨Nat.zero_le 1, rfl, Nat.le_refl 0⟩
      · split
        · split
          · split
            · split
              · exact ⟨Nat.le_refl 1, rfl, Nat.le_refl 1⟩
              · exact ⟨Nat.le_refl 1, rfl, Nat.zero_le 1⟩
            · exact ⟨Nat.zero_le 1, rfl, Nat.le_refl 0⟩
          · exact ⟨Nat.zero_le 1, rfl, Nat.le_refl 0⟩
        · exact ⟨Nat.zero_le 1, rfl, Nat.le_refl 0⟩

theorem getD_append_last (xs : List Nat) :
    (xs ++ [0]).getD xs.length 0 = 0 := by
  rw [List.getD_eq_getElem _ _ (by simp)]
  simp

theorem getD_append_left (xs ys : List Nat) (i : Nat) (h : i < xs.length) :
    (xs ++ ys).getD i 0 = xs.getD i 0 := by
  induction xs generalizing i with
  | nil => exact absurd h (by simp)
  | cons x t ih =>
      cases i with
      | zero => rfl
      | succ k => simpa using ih k (by simpa using h)

/-- C5: a non-null input that is shorter than 4 bytes, or whose first
4 bytes are not the ASCII bytes `F`,`U`,`Z`,`Z`, is rejected (the status
is not the success status 0) and no allocation is attempted. -/
theorem process_input_no_tag (a : Nat → Bool) (j : Nat → Nat) (l : List Nat)
    (hb : ∀ b ∈ l, b < 256)
    (h : l.length < 4 ∨ l.take 4 ≠ [70, 85, 90, 90]) :
    (process_input a j (some l)).ret ≠ 0 ∧
    (process_input a j (some l)).mallocCalls = 0 := by
  have htag : ¬ tag_check l j = true := by
    rw [tag_check_iff l j hb]
    rintro ⟨h4, ht⟩
    rcases h with h | h
    · omega
    · exact h ht
  by_cases hne : l.length = 0
  · simp only [process_input, if_pos hne]
    exact ⟨by simp, trivial⟩
  · simp only [process_input, if_neg hne, if_neg htag]
    exact ⟨by simp, trivial⟩

/-- Witness for `process_input_no_tag` at the 3-byte input `[1, 2, 3]`. -/
theorem process_input_no_tag_witness :
    (process_input (fun _ => true) (fun _ => 0) (some [1, 2, 3])).ret ≠ 0 ∧
    (process_input (fun _ => true) (fun _ => 0) (some [1, 2, 3])).mallocCalls = 0 :=
  process_input_no_tag (fun _ => true) (fun _ => 0) [1, 2, 3] (by decide)
    (Or.inl (by decide))

/-- C1 (amended): for a valid `FUZZ` tag, total length ≥ 8 and nonzero
declared length, if the exact sum `8 + declared_length` exceeds the input
length *and stays below `2^64`* (so the `size_t` addition does not wrap),
`process_input` rejects with status 1 and attempts no allocation.  The
unamended claim — rejection also when `declared_length` is near the
maximum and the addition wraps — is refuted by
`process_input_wrap_counterexample`. -/
theorem process_input_bound_reject_no_wrap (a : Nat → Bool) (j : Nat → Nat)
    (l : List Nat) (htag : tag_check l j = true) (hlen : 8 ≤ l.length)
    (_hpos : 0 < decodeLen l j) (hnw : 8 + decodeLen l j < WORD)
    (hgt : l.length < 8 + decodeLen l j) :
    (process_input a j (some l)).ret = 1 ∧
    (process_input a j (some l)).mallocCalls = 0 := by
  have h4 : 4 ≤ l.length := tag_check_length l j htag
  have hne : ¬ l.length = 0 := by omega
  have hmod : (8 + decodeLen l j) % WORD = 8 + decodeLen l j := Nat.mod_eq_of_lt hnw
  simp only [process_input, if_neg hne, if_pos htag, if_pos hlen,
    if_neg (by rw [hmod]; omega : ¬ (0 < decodeLen l j ∧
      (8 + decodeLen l j) % WORD ≤ l.length))]
  refine ⟨?_, ?_⟩ <;> trivial

/-- Witness for `process_input_bound_reject_no_wrap`: the spec scenario
`FUZZ` + length field 100 + only 5 payload bytes is rejected. -/
theorem process_input_bound_reject_no_wrap_witness :
    (process_input (fun _ => true) (fun _ => 0)
      (some [70, 85, 90, 90, 100, 0, 0, 0, 0, 0, 0, 0, 1, 2, 3, 4, 5])).ret = 1 ∧
    (process_input (fun _ => true) (fun _ => 0)
      (some [70, 85, 90, 90, 100, 0, 0, 0, 0, 0, 0, 0, 1, 2, 3, 4, 5])).mallocCalls
      = 0 :=
  process_input_bound_reject_no_wrap (fun _ => true) (fun _ => 0)
    [70, 85, 90, 90, 100, 0, 0, 0, 0, 0, 0, 0, 1, 2, 3, 4, 5]
    (by decide) (by decide) (by decide) (by decide) (by decide)

/-- C1 counterexample input: valid tag, 12 bytes total, length field
`2^64 - 8` (little-endian bytes `f8 ff ff ff ff ff ff ff`). -/
def wrapInput : List Nat :=
  [70, 85, 90, 90, 248, 255, 255, 255, 255, 255, 255, 255]

/-- C1 is false of the code as stated: for `wrapInput` the exact sum
`8 + declared_length = 2^64` exceeds the input length 12, yet the `size_t`
comparison `len >= 8 + data_len` wraps to `len >= 0` and passes, so with a
succeeding allocator `process_input` returns success `0` after an
out-of-bounds `memcpy` — it does not reject. -/
theorem process_input_wrap_counterexample :
    tag_check wrapInput (fun _ => 0) = true ∧
    8 ≤ wrapInput.length ∧
    0 < decodeLen wrapInput (fun _ => 0) ∧
    wrapInput.length < 8 + decodeLen wrapInput (fun _ => 0) ∧
    (process_input (fun _ => true) (fun _ => 0) (some wrapInput)).ret = 0 ∧
    (process_input (fun _ => true) (fun _ => 0) (some wrapInput)).oob = true := by
  refine ⟨by decide, by decide, by decide, by decide, by decide, by decide⟩

/-- The concrete scenario of the spec: `FUZZ` + little-endian 8-byte
encoding of 3 + the bytes `A`, `B`, `C`. -/
def abcInput : List Nat :=
  [70, 85, 90, 90, 3, 0, 0, 0, 0, 0, 0, 0, 65, 66, 67]

/-- C2's concrete instance is false of the code: the call succeeds, but
the copied region is the three zero bytes at offsets 8..10 — the tail of
the 8-byte length field — and not `A`,`B`,`C`, which sit at offsets
12..14.  The copy offset 8 overlaps the length field at bytes 4..11. -/
theorem process_input_abc_counterexample :
    (process_input (fun _ => true) (fun _ => 0) (some abcInput)).ret = 0 ∧
    (process_input (fun _ => true) (fun _ => 0) (some abcInput)).copied =
      some [0, 0, 0] ∧
    (process_input (fun _ => true) (fun _ => 0) (some abcInput)).copied ≠
      some [65, 66, 67] := by
  refine ⟨by decide, by decide, by decide⟩

/-- C2 (amended): for a well-formed input — valid `FUZZ` tag, the 8 bytes
at offsets 4..11 encoding a nonzero length, and that many bytes available
from offset 8 — `process_input` with a succeeding scratch allocation
returns success 0, reads no byte outside the input, and copies exactly
`declared_length` bytes of the input starting at offset 8.  Because that
offset overlaps the 8-byte length field, the copied region begins with
the high bytes of the length encoding (so in the concrete scenario of
`abcInput` the copied region is `0,0,0`, not `A`,`B`,`C`). -/
theorem process_input_wellformed (a : Nat → Bool) (j : Nat → Nat)
    (l : List Nat) (hb : ∀ b ∈ l, b < 256)
    (htag : tag_check l j = true)
    (hhdr : 12 ≤ l.length)
    (hpos : 0 < decodeLen l j)
    (hpay : 8 + decodeLen l j ≤ l.length)
    (halloc : a (decodeLen l j) = true) :
    (process_input a j (some l)).ret = 0 ∧
    (process_input a j (some l)).oob = false ∧
    ∃ c, (process_input a j (some l)).copied = some c ∧
      c.length = decodeLen l j ∧
      ∀ k, k < decodeLen l j → c.getD k 0 = l.getD (8 + k) 0 := by
  have hne : ¬ l.length = 0 := by omega
  have hcond : 0 < decodeLen l j ∧ (8 + decodeLen l j) % WORD ≤ l.length :=
    ⟨hpos, le_trans (Nat.mod_le _ _) hpay⟩
  simp only [process_input, if_neg hne, if_pos htag,
    if_pos (by omega : 8 ≤ l.length), if_pos hcond, if_pos halloc]
  refine ⟨trivial, ?_, ?_⟩
  · simp only [Bool.or_eq_false_iff, decide_eq_false_iff_not]
    constructor <;> omega
  · refine ⟨_, rfl, by simp, ?_⟩
    intro k hk
    rw [getD_map_range _ _ _ hk]
    unfold byteAt
    have hkin : 8 + k < l.length := by omega
    rw [List.getD_eq_getElem l (j (8 + k)) hkin, List.getD_eq_getElem l 0 hkin]
    exact Nat.mod_eq_of_lt (hb _ (List.getElem_mem hkin))

/-- Witness for `process_input_wellformed` at the concrete scenario
input `abcInput`. -/
theorem process_input_wellformed_witness :
    (process_input (fun _ => true) (fun _ => 0) (some abcInput)).ret = 0 ∧
    (process_input (fun _ => true) (fun _ => 0) (some abcInput)).oob = false ∧
    ∃ c, (process_input (fun _ => true) (fun _ => 0) (some abcInput)).copied
        = some c ∧
      c.length = decodeLen abcInput (fun _ => 0) ∧
      ∀ k, k < decodeLen abcInput (fun _ => 0) →
        c.getD k 0 = abcInput.getD (8 + k) 0 :=
  process_input_wellformed (fun _ => true) (fun _ => 0) abcInput
    (by decide) (by decide) (by decide) (by decide) (by decide) (by decide)

/-- C10: `safe_copy_string` with non-null pointers and a positive size
within the destination capacity writes only inside
`dest[0 .. dest_size-1]`, leaves the terminating zero at index
`dest_size - 1`, and each written character below `dest_size - 1` is a
character of `src` at the same position or the zero padding of `strncpy`
(so at most `dest_size - 1` characters of `src` are copied); with a null
destination, a null source or `dest_size = 0`, nothing is written. -/
theorem safe_copy_string_spec (d s : List Nat) (n : Nat)
    (hpos : 0 < n) (hcap : n ≤ d.length) :
    (∃ r, safe_copy_string (some d) (some s) n = some r ∧
      r.length = d.length ∧
      r.getD (n - 1) 0 = 0 ∧
      (∀ i, n ≤ i → r.getD i 0 = d.getD i 0) ∧
      (∀ i, i < n - 1 → r.getD i 0 = s.getD i 0 % 256 ∨ r.getD i 0 = 0)) ∧
    safe_copy_string none (some s) n = none ∧
    safe_copy_string (some d) none n = some d ∧
    safe_copy_string (some d) (some s) 0 = some d := by
  have hne : ¬ n = 0 := by omega
  have hwlen : (strncpyList s (n - 1) ++ [0]).length = n := by
    simp [strncpyList_length]
    omega
  refine ⟨⟨writeRange d (strncpyList s (n - 1) ++ [0]), ?_, writeRange_length _ _,
    ?_, ?_, ?_⟩, rfl, rfl, rfl⟩
  · simp [safe_copy_string, hne]
  · have hlt : n - 1 < d.length := by omega
    have hc : n - 1 < (strncpyList s (n - 1) ++ [0]).length := by omega
    rw [writeRange_getD _ _ _ hlt, if_pos hc]
    have h := getD_append_last (strncpyList s (n - 1))
    rwa [strncpyList_length] at h
  · intro i hi
    rcases Nat.lt_or_ge i d.length with h | h
    · have hc : ¬ i < (strncpyList s (n - 1) ++ [0]).length := by omega
      rw [writeRange_getD _ _ _ h, if_neg hc]
    · rw [writeRange_getD_ge _ _ _ h, List.getD_eq_default _ _ h]
  · intro i hi
    have hlt : i < d.length := by omega
    have hc : i < (strncpyList s (n - 1) ++ [0]).length := by omega
    have hs : i < (strncpyList s (n - 1)).length := by rw [strncpyList_length]; omega
    rw [writeRange_getD _ _ _ hlt, if_pos hc, getD_append_left _ _ _ hs]
    exact strncpyList_getD s (n - 1) i

/-- Witness for `safe_copy_string_spec` at a concrete call: buffer of
capacity 4, source `[65, 66]`, size 3. -/
theorem safe_copy_string_spec_witness :
    (∃ r, safe_copy_string (some [9, 9, 9, 9]) (some [65, 66]) 3 = some r ∧
      r.length = ([9, 9, 9, 9] : List Nat).length ∧
      r.getD (3 - 1) 0 = 0 ∧
      (∀ i, 3 ≤ i → r.getD i 0 = ([9, 9, 9, 9] : List Nat).getD i 0) ∧
      (∀ i, i < 3 - 1 →
        r.getD i 0 = ([65, 66] : List Nat).getD i 0 % 256 ∨ r.getD i 0 = 0)) ∧
    safe_copy_string none (some [65, 66]) 3 = none ∧
    safe_copy_string (some [9, 9, 9, 9]) none 3 = some [9, 9, 9, 9] ∧
    safe_copy_string (some [9, 9, 9, 9]) (some [65, 66]) 0 = some [9, 9, 9, 9] :=
  safe_copy_string_spec [9, 9, 9, 9] [65, 66] 3 (by decide) (by decide)
